import Mathlib

/-!
Verification of the gap-buffer repository (`gap_buffer.hpp`): a shallow
embedding of the `gap_buffer<T>` container and of the `text_editor_buffer`
layer built on it, with theorems settling the specification claims.

The `gap_buffer<T>` container is modelled at the physical level: the backing
allocation is a list of slots, where `none` stands for an unconstructed slot
(the gap, or a slot never constructed in a fresh allocation), and the gap
bounds are carried alongside, exactly as the fields of the C++ class.

The `text_editor_buffer` layer is modelled over the logical character
sequence (the document content) together with the cursor and the
line-cache validity flag, mirroring each member function of the source.
-/

set_option maxRecDepth 100000
set_option maxHeartbeats 1000000

universe u

/-- State of `gap_buffer<T>`: the backing allocation as a list of slots
(`none` models an unconstructed slot), plus `gap_start` and `gap_end`.
The C++ field `buffer_size` is `buffer.length` here. -/
structure gap_buffer (T : Type u) where
  buffer : List (Option T)
  gap_start : Nat
  gap_end : Nat
deriving DecidableEq

namespace gap_buffer

variable {T : Type u}

/-- Member `size()`: `buffer_size - (gap_end - gap_start)`. -/
def size (b : gap_buffer T) : Nat :=
  b.buffer.length - (b.gap_end - b.gap_start)

/-- Member `capacity()`: the source computes `buffer_size - (gap_end - gap_start)`,
the very same expression as `size()`. -/
def capacity (b : gap_buffer T) : Nat :=
  b.buffer.length - (b.gap_end - b.gap_start)

/-- Member `operator[]`: logical position `pos` reads physical slot `pos`
when `pos < gap_start`, else slot `pos + (gap_end - gap_start)`. An
out-of-range physical read yields `none` (an unconstructed slot does too). -/
def read (b : gap_buffer T) (pos : Nat) : Option T :=
  if pos ≥ b.gap_start then b.buffer.getD (pos + (b.gap_end - b.gap_start)) none
  else b.buffer.getD pos none

/-- Member `move_gap(pos)`: relocate the gap so that `gap_start = pos`,
block-moving the side between `pos` and the old gap. Moving left copies
slots `[pos, gap_start)` to the range ending at `gap_end` (the source uses
`std::move_backward`); moving right copies `[gap_end, gap_end + count)` down
to `gap_start` (`std::move`). Moved-from slots keep their value, as a
moved-from object stays constructed. -/
def move_gap (b : gap_buffer T) (pos : Nat) : gap_buffer T :=
  if pos = b.gap_start then b
  else if pos < b.gap_start then
    let count := b.gap_start - pos
    { buffer := List.ofFn fun i : Fin b.buffer.length =>
        if b.gap_end - count ≤ i.1 ∧ i.1 < b.gap_end then
          b.buffer.getD (pos + (i.1 - (b.gap_end - count))) none
        else b.buffer.getD i.1 none
      gap_start := pos
      gap_end := b.gap_end - count }
  else
    let count := pos - b.gap_start
    { buffer := List.ofFn fun i : Fin b.buffer.length =>
        if b.gap_start ≤ i.1 ∧ i.1 < b.gap_start + count then
          b.buffer.getD (b.gap_end + (i.1 - b.gap_start)) none
        else b.buffer.getD i.1 none
      gap_start := pos
      gap_end := b.gap_end + count }

/-- New capacity chosen by `grow`: double the current one (16 when empty),
escalated to `min_capacity` when positive and larger than the doubled value. -/
def grow_capacity (len min_capacity : Nat) : Nat :=
  let doubled := if len = 0 then 16 else len * 2
  if 0 < min_capacity ∧ doubled < min_capacity then min_capacity else doubled

/-- Member `grow(min_capacity)`: allocate `grow_capacity` slots; the
live prefix and then the live suffix are constructed into the leading slots
of the new region; afterwards the source keeps `gap_start` unchanged and sets
`gap_end = gap_start + (new_capacity - old_size)`. The copy loop runs only
when the old buffer exists and `old_size > 0`, as in the source. -/
def grow (b : gap_buffer T) (min_capacity : Nat) : gap_buffer T :=
  let old_size := b.size
  let new_capacity := grow_capacity b.buffer.length min_capacity
  let new_buffer : List (Option T) :=
    if b.buffer.length = 0 ∨ old_size = 0 then List.replicate new_capacity none
    else List.ofFn fun i : Fin new_capacity =>
      if i.1 < b.gap_start then b.buffer.getD i.1 none
      else if i.1 < b.gap_start + (b.buffer.length - b.gap_end) then
        b.buffer.getD (b.gap_end + (i.1 - b.gap_start)) none
      else none
  { buffer := new_buffer
    gap_start := b.gap_start
    gap_end := b.gap_start + (new_capacity - old_size) }

/-- Member `reserve(new_cap)`: grow when `new_cap > capacity()`, asking for
`new_cap + (gap_end - gap_start)` slots. -/
def reserve (b : gap_buffer T) (new_cap : Nat) : gap_buffer T :=
  if new_cap > b.capacity then b.grow (new_cap + (b.gap_end - b.gap_start)) else b

/-- Member `insert(pos, value)` (single element): move the gap to `pos`,
grow when the gap is exhausted, construct the value at slot `gap_start`,
and advance `gap_start`. -/
def insert (b : gap_buffer T) (pos : Nat) (v : T) : gap_buffer T :=
  let b1 := b.move_gap pos
  let b2 := if b1.gap_end = b1.gap_start then b1.grow 0 else b1
  { buffer := b2.buffer.set b2.gap_start (some v)
    gap_start := b2.gap_start + 1
    gap_end := b2.gap_end }

/-- Member `erase(first, last)`: move the gap to `first`, then destroy
elements at the trailing edge of the gap, advancing `gap_end`, for the
removed count, bounded by the remaining suffix length. Destroyed slots
become unconstructed. -/
def erase (b : gap_buffer T) (first last : Nat) : gap_buffer T :=
  if first = last then b
  else
    let count := last - first
    let b1 := b.move_gap first
    let removed := min count (b1.buffer.length - b1.gap_end)
    { buffer := List.ofFn fun i : Fin b1.buffer.length =>
        if b1.gap_end ≤ i.1 ∧ i.1 < b1.gap_end + removed then none
        else b1.buffer.getD i.1 none
      gap_start := b1.gap_start
      gap_end := b1.gap_end + removed }

/-- Non-member `operator==`: sizes first, then `std::equal` over the logical
positions, each element read through the iterator mapping (the same mapping
as `operator[]`). -/
def equals [DecidableEq T] (l r : gap_buffer T) : Bool :=
  if l.size ≠ r.size then false
  else (List.range l.size).all fun p => decide (l.read p = r.read p)

/-- Logical sequence of the buffer: live prefix before the gap followed by
the live suffix after it, slot by slot. -/
def logical (b : gap_buffer T) : List (Option T) :=
  b.buffer.take b.gap_start ++ b.buffer.drop b.gap_end

/-- Structural bounds of a well-formed buffer: `gap_start ≤ gap_end ≤ buffer_size`. -/
def WF (b : gap_buffer T) : Prop :=
  b.gap_start ≤ b.gap_end ∧ b.gap_end ≤ b.buffer.length

instance (b : gap_buffer T) : Decidable b.WF := by
  unfold WF
  exact inferInstance

end gap_buffer

/-- A 17-step operation sequence on a fresh `gap_buffer<Nat>`: insert the
values `0, 1, ..., 16`, each at logical position 0. The 17th insert lands
on a full buffer of capacity 16, moves the gap to position 0 and triggers
`grow` with the gap away from the end. -/
def seventeen_front_inserts : gap_buffer Nat :=
  (List.range 17).foldl (fun b k => b.insert 0 k) ⟨[], 0, 0⟩

/-- State of `text_editor_buffer`: the document is the logical character
sequence of the inherited `gap_buffer<char>`; `cursor_pos` and the
line-cache validity flag are the two extra fields. The `line_starts`
cache itself is a pure function of the content (it is rebuilt
deterministically by `update_line_cache`), so it is recomputed on demand
here instead of being stored. -/
structure text_editor_buffer where
  content : List Char
  cursor_pos : Nat
  line_cache_valid : Bool
deriving DecidableEq

namespace text_editor_buffer

/-- Member `size()` of the underlying buffer: the logical length. -/
def size (st : text_editor_buffer) : Nat := st.content.length

/-- Member `set_cursor_position(pos)`: clamp to `[0, size()]`. -/
def set_cursor_position (st : text_editor_buffer) (pos : Nat) : text_editor_buffer :=
  { st with cursor_pos := min pos st.size }

/-- Offsets pushed by the scan loop of `update_line_cache`: for each index
`i` of the content holding a newline, the offset `i + 1`. The first
argument is the remaining content, the second the index of its head. -/
def newline_offsets : List Char → Nat → List Nat
  | [], _ => []
  | c :: rest, i =>
    if c = '\n' then (i + 1) :: newline_offsets rest (i + 1)
    else newline_offsets rest (i + 1)

/-- The `line_starts` cache as rebuilt by `update_line_cache`: the offset 0,
then one entry per newline of the content. -/
def line_starts (content : List Char) : List Nat :=
  0 :: newline_offsets content 0

/-- Member `get_line_count()`: the number of entries of the line cache. -/
def get_line_count (st : text_editor_buffer) : Nat :=
  (line_starts st.content).length

/-- Member `insert_text(pos, text)`: insert verbatim at `pos`; when
`pos ≤ cursor_pos` the cursor shifts right by the inserted length; the line
cache is invalidated. Empty text returns at once with no effect. -/
def insert_text (st : text_editor_buffer) (pos : Nat) (text : List Char) : text_editor_buffer :=
  if text = [] then st
  else
    { content := st.content.take pos ++ text ++ st.content.drop pos
      cursor_pos := if pos ≤ st.cursor_pos then st.cursor_pos + text.length else st.cursor_pos
      line_cache_valid := false }

/-- Member `delete_text(pos, count)`: when `pos < size()` and `count > 0`,
remove `min(count, size() - pos)` characters starting at `pos`, adjust the
cursor (shift left past the range, clamp to `pos` inside it, untouched
before it) and invalidate the cache; otherwise return unchanged. -/
def delete_text (st : text_editor_buffer) (pos count : Nat) : text_editor_buffer :=
  if pos ≥ st.size ∨ count = 0 then st
  else
    let c := min count (st.size - pos)
    { content := st.content.take pos ++ st.content.drop (pos + c)
      cursor_pos :=
        if pos < st.cursor_pos then
          if st.cursor_pos ≥ pos + c then st.cursor_pos - c else pos
        else st.cursor_pos
      line_cache_valid := false }

/-- Member `replace_text(pos, count, replacement)`: delete then insert. -/
def replace_text (st : text_editor_buffer) (pos count : Nat) (replacement : List Char) : text_editor_buffer :=
  (st.delete_text pos count).insert_text pos replacement

/-- Member `find_text(search_text, start_pos)`: empty needle or
`start_pos ≥ size()` yield not-found; otherwise the first position
`p ≥ start_pos` where the needle occurs in the materialized content
(`std::string::find`). -/
def find_text (st : text_editor_buffer) (needle : List Char) (start_pos : Nat) : Option Nat :=
  if needle = [] ∨ start_pos ≥ st.size then none
  else (List.range' start_pos (st.size + 1 - start_pos)).find? fun p =>
    needle.isPrefixOf (st.content.drop p)

/-- Loop of `replace_all`: find from `pos`, replace, advance
`pos` to the match position plus the replacement length, force one extra
step when the replacement is empty and the advance was zero-width, stop
when `pos ≥ size()` or nothing is found. The fuel argument makes the
recursion structural; `none` means the fuel ran out before the loop
finished (`replace_all_fuel` below proves this never happens with fuel
`size() + 1`). -/
def replace_all_loop (needle replacement : List Char) :
    Nat → text_editor_buffer → Nat → Nat → Option (text_editor_buffer × Nat)
  | 0, _, _, _ => none
  | fuel + 1, st, pos, count =>
    match st.find_text needle pos with
    | none => some (st, count)
    | some p =>
      let st' := st.replace_text p needle.length replacement
      let pos₁ := p + replacement.length
      let pos₂ := if replacement = [] ∧ pos₁ = p then pos₁ + 1 else pos₁
      if pos₂ ≥ st'.size then some (st', count + 1)
      else replace_all_loop needle replacement fuel st' pos₂ (count + 1)

/-- Member `replace_all(search_text, replacement)`: empty needle returns 0
at once; otherwise run the loop from position 0. -/
def replace_all (st : text_editor_buffer) (needle replacement : List Char) :
    Option (text_editor_buffer × Nat) :=
  if needle = [] then some (st, 0)
  else replace_all_loop needle replacement (st.size + 1) st 0 0

/-- The three line-ending targets of `line_ending_type`. -/
inductive line_ending_type where
  | LF
  | CRLF
  | CR
deriving DecidableEq

/-- The byte sequence written for the target convention. -/
def target_ending : line_ending_type → List Char
  | .LF => ['\n']
  | .CRLF => ['\r', '\n']
  | .CR => ['\r']

/-- Scan loop of `convert_line_endings`: a `'\r'` followed by `'\n'` is one
terminator, a lone `'\r'` or `'\n'` is one terminator, each rewritten to
the target; every other character is copied. -/
def convert_content (t : line_ending_type) : List Char → List Char
  | [] => []
  | [c] =>
    if c = '\r' ∨ c = '\n' then target_ending t else [c]
  | c :: c2 :: rest =>
    if c = '\r' then
      if c2 = '\n' then target_ending t ++ convert_content t rest
      else target_ending t ++ convert_content t (c2 :: rest)
    else if c = '\n' then target_ending t ++ convert_content t (c2 :: rest)
    else c :: convert_content t (c2 :: rest)

/-- Member `convert_line_endings(target)`: rebuild the content through the
scan loop, then `clear()` and `assign(...)` the result and invalidate the
line cache. The cursor field is not touched by the source. -/
def convert_line_endings (st : text_editor_buffer) (t : line_ending_type) : text_editor_buffer :=
  { content := convert_content t st.content
    cursor_pos := st.cursor_pos
    line_cache_valid := false }

/-- Member `load_from_file(filename)`, with the file system abstracted:
`file = none` models a file that fails to open (the source returns `false`
at once, before any mutation), and `file = some bytes` a successful open
whose read delivers all bytes (the source then clears, assigns the bytes,
resets the cursor and invalidates the cache, returning `true`). -/
def load_from_file (file : Option (List Char)) (st : text_editor_buffer) :
    Bool × text_editor_buffer :=
  match file with
  | none => (false, st)
  | some bytes => (true, { content := bytes, cursor_pos := 0, line_cache_valid := false })

end text_editor_buffer

namespace text_editor_buffer

/-- Static member `is_utf8_continuation(byte)`: `(byte & 0xC0) == 0x80`.
Bytes are modelled as natural numbers below 256 (the source casts each
`char` to `unsigned char` before inspecting it). -/
def is_utf8_continuation (b : Nat) : Bool :=
  b &&& 192 == 128

/-- Static member `utf8_char_length(first_byte)`: 1 for ASCII, 2/3/4 for
the lead-byte patterns `110xxxxx`, `1110xxxx`, `11110xxx`, 0 otherwise. -/
def utf8_char_length (b : Nat) : Nat :=
  if b < 128 then 1
  else if b &&& 224 = 192 then 2
  else if b &&& 240 = 224 then 3
  else if b &&& 248 = 240 then 4
  else 0

/-- One iteration of the `is_valid_utf8` scan, positioned at lead byte `ch`
with `rest` the bytes after it: the lead byte classifies, the character is
not cut off by the buffer end, every continuation byte matches `10xxxxxx`,
and the decoded code point of a multi-byte character is neither overlong
nor a surrogate nor beyond U+10FFFF — each test exactly as in the source. -/
def utf8_ok_at (ch : Nat) (rest : List Nat) : Bool :=
  if utf8_char_length ch = 0 then false
  else if rest.length + 1 < utf8_char_length ch then false
  else if ¬ ((rest.take (utf8_char_length ch - 1)).all is_utf8_continuation) then false
  else if utf8_char_length ch = 2 then
    decide (128 ≤ (((ch &&& 31) <<< 6) ||| (rest.getD 0 0 &&& 63)))
  else if utf8_char_length ch = 3 then
    decide (2048 ≤ ((((ch &&& 15) <<< 12) ||| ((rest.getD 0 0 &&& 63) <<< 6)) |||
        (rest.getD 1 0 &&& 63)) ∧
      ¬ (55296 ≤ ((((ch &&& 15) <<< 12) ||| ((rest.getD 0 0 &&& 63) <<< 6)) |||
        (rest.getD 1 0 &&& 63)) ∧
        ((((ch &&& 15) <<< 12) ||| ((rest.getD 0 0 &&& 63) <<< 6)) |||
        (rest.getD 1 0 &&& 63)) ≤ 57343))
  else if utf8_char_length ch = 4 then
    decide (65536 ≤ (((((ch &&& 7) <<< 18) ||| ((rest.getD 0 0 &&& 63) <<< 12)) |||
        ((rest.getD 1 0 &&& 63) <<< 6)) ||| (rest.getD 2 0 &&& 63)) ∧
      (((((ch &&& 7) <<< 18) ||| ((rest.getD 0 0 &&& 63) <<< 12)) |||
        ((rest.getD 1 0 &&& 63) <<< 6)) ||| (rest.getD 2 0 &&& 63)) ≤ 1114111)
  else true

/-- Member `is_valid_utf8()`: walk the byte sequence, checking each
character and stepping forward by its length. -/
def is_valid_utf8 : List Nat → Bool
  | [] => true
  | ch :: rest =>
    if utf8_ok_at ch rest then is_valid_utf8 (rest.drop (utf8_char_length ch - 1))
    else false
termination_by l => l.length
decreasing_by simp [List.length_drop]; omega

end text_editor_buffer

/-- A Unicode scalar value: at most U+10FFFF and not a surrogate.
Follows the spec's words for what `is_valid_utf8` must accept. -/
def ValidScalar (cp : Nat) : Prop :=
  cp ≤ 1114111 ∧ ¬ (55296 ≤ cp ∧ cp ≤ 57343)

instance (cp : Nat) : Decidable (ValidScalar cp) := by
  unfold ValidScalar
  exact inferInstance

/-- The canonical (shortest) UTF-8 encoding of a code point, written with
arithmetic on the code point's bit fields. Follows the spec's words. -/
def encodeUtf8 (cp : Nat) : List Nat :=
  if cp < 128 then [cp]
  else if cp < 2048 then [192 + cp / 64, 128 + cp % 64]
  else if cp < 65536 then [224 + cp / 4096, 128 + cp / 64 % 64, 128 + cp % 64]
  else [240 + cp / 262144, 128 + cp / 4096 % 64, 128 + cp / 64 % 64, 128 + cp % 64]

/-- Well-formed UTF-8 byte sequences, following the spec's words: a
concatenation of canonical encodings of Unicode scalar values. -/
inductive SpecUtf8 : List Nat → Prop where
  | nil : SpecUtf8 []
  | cons (cp : Nat) (rest : List Nat) :
      ValidScalar cp → SpecUtf8 rest → SpecUtf8 (encodeUtf8 cp ++ rest)

namespace gap_buffer

variable {T : Type u}

theorem grow_capacity_le (len m : Nat) : m ≤ grow_capacity len m ∧ len ≤ grow_capacity len m := by
  have hd : len ≤ (if len = 0 then 16 else len * 2) := by split <;> omega
  simp only [grow_capacity]
  generalize hgen : (if len = 0 then 16 else len * 2) = d at hd ⊢
  split <;> omega

theorem grow_buffer_length (b : gap_buffer T) (m : Nat) :
    (b.grow m).buffer.length = grow_capacity b.buffer.length m := by
  simp only [grow]
  split <;> simp

theorem grow_gap_start (b : gap_buffer T) (m : Nat) : (b.grow m).gap_start = b.gap_start := rfl

theorem grow_gap_end (b : gap_buffer T) (m : Nat) :
    (b.grow m).gap_end = b.gap_start + (grow_capacity b.buffer.length m - b.size) := rfl

theorem size_le_buffer_length (b : gap_buffer T) : b.size ≤ b.buffer.length :=
  Nat.sub_le _ _

theorem grow_size (b : gap_buffer T) (m : Nat) : (b.grow m).size = b.size := by
  have h1 := grow_capacity_le b.buffer.length m
  have h2 := size_le_buffer_length b
  simp only [size, grow_buffer_length, grow_gap_start, grow_gap_end]
  omega

end gap_buffer

/-- C4 (amended): `capacity()` computes `buffer_size - (gap_end - gap_start)`,
the very same formula as `size()`, so `capacity()` always equals `size()`
(rather than the total slots of the backing allocation); `reserve(n)` leaves
the logical size unchanged, never shrinks the backing allocation, and makes
the backing allocation at least `n` slots — but `capacity()` after
`reserve(n)` can stay below `n`. -/
theorem c4_capacity_reserve {T : Type u} (b : gap_buffer T) (n : Nat) :
    b.capacity = b.size ∧
    (b.reserve n).size = b.size ∧
    n ≤ (b.reserve n).buffer.length ∧
    b.buffer.length ≤ (b.reserve n).buffer.length := by
  have h1 := gap_buffer.grow_capacity_le b.buffer.length (n + (b.gap_end - b.gap_start))
  have h2 := gap_buffer.size_le_buffer_length b
  refine ⟨rfl, ?_, ?_, ?_⟩ <;> unfold gap_buffer.reserve <;> split
  · exact gap_buffer.grow_size b _
  · rfl
  · rw [gap_buffer.grow_buffer_length]
    omega
  · rename_i hcond
    simp only [gt_iff_lt, not_lt, gap_buffer.capacity] at hcond
    omega
  · rw [gap_buffer.grow_buffer_length]
    omega
  · omega

/-- C4, counterexample to the claim as stated: after a single insert into a
fresh buffer the backing allocation has 16 slots while `capacity()` returns
1 (it is not the total slot count), and after `reserve(10)` the reported
`capacity()` is still 1, not at least 10. -/
theorem c4_counterexample :
    ((⟨[], 0, 0⟩ : gap_buffer Nat).insert 0 7).buffer.length = 16 ∧
    ((⟨[], 0, 0⟩ : gap_buffer Nat).insert 0 7).capacity = 1 ∧
    (((⟨[], 0, 0⟩ : gap_buffer Nat).insert 0 7).reserve 10).capacity < 10 := by
  decide

/-- C1: evaluation of the embedded container at a failing operation
sequence. Inserting the values 0..16 one at a time, each at logical
position 0, makes the 17th insert move the gap to position 0 on a full
16-slot buffer and trigger `grow`; `grow` packs the live elements into the
leading slots of the new allocation but keeps `gap_start` unchanged instead
of placing the gap after them, so afterwards `size()` reports 17 yet every
logical position from 1 on maps to an unconstructed slot: reading position 1
yields no element at all, where the element written as value 15 should be.
The logical-to-physical mapping is no longer a bijection onto live slots. -/
theorem c1_grow_breaks_mapping :
    seventeen_front_inserts.size = 17 ∧
    seventeen_front_inserts.read 0 = some 16 ∧
    seventeen_front_inserts.read 1 = none ∧
    seventeen_front_inserts.read 16 = none := by
  decide

namespace text_editor_buffer

theorem newline_offsets_length (content : List Char) (i : Nat) :
    (newline_offsets content i).length = content.count '\n' := by
  induction content generalizing i with
  | nil => simp [newline_offsets]
  | cons c rest ih =>
    by_cases h : c = '\n' <;>
      simp [newline_offsets, h, List.count_cons, ih]

end text_editor_buffer

/-- C2 (amended): `get_line_count()` equals the number of newline characters
plus 1 for every buffer content, whether or not it ends in a newline — the
cache always holds offset 0 plus one entry per newline, so a trailing
newline starts a final empty line that is counted. -/
theorem c2_line_count (st : text_editor_buffer) :
    st.get_line_count = st.content.count '\n' + 1 := by
  simp [text_editor_buffer.get_line_count, text_editor_buffer.line_starts,
    text_editor_buffer.newline_offsets_length]

/-- C2, counterexample to the claim as stated: for the buffer `"ab\ncd\n"`
(two newline characters, content ending in a newline) `get_line_count()`
returns 3, not 2. -/
theorem c2_counterexample :
    text_editor_buffer.get_line_count ⟨['a', 'b', '\n', 'c', 'd', '\n'], 0, false⟩ ≠ 2 := by
  decide

/-- C5: evaluation of the embedded text buffer at a failing input. Insert
`"a\r\nb"` into an empty buffer (the cursor moves to 4), then call
`convert_line_endings(LF)`: the content shrinks to `"a\nb"` of size 3, but
the source never adjusts `cursor_pos`, so the cursor stays at 4 and the
claimed invariant `cursor_pos ≤ size()` is violated. -/
theorem c5_cursor_invariant_broken :
    ((text_editor_buffer.insert_text ⟨[], 0, false⟩ 0 ['a', '\r', '\n', 'b']).convert_line_endings
        .LF).cursor_pos >
      ((text_editor_buffer.insert_text ⟨[], 0, false⟩ 0 ['a', '\r', '\n', 'b']).convert_line_endings
        .LF).size := by
  decide

/-- C6 (amended): `load_from_file` returns a success flag; on a successful
open and read it replaces the whole content with the file's bytes, resets
the cursor to 0 and invalidates the line cache; on a failure to open the
file it returns `false` and leaves the buffer unchanged — content, cursor
and cache are all kept, the buffer is not cleared. -/
theorem c6_load_from_file (st : text_editor_buffer) (bytes : List Char) :
    text_editor_buffer.load_from_file none st = (false, st) ∧
    text_editor_buffer.load_from_file (some bytes) st = (true, ⟨bytes, 0, false⟩) :=
  ⟨rfl, rfl⟩

/-- C6, counterexample to the claim as stated: a buffer holding one
character put through a failing open keeps its content — the failure path
does not leave the buffer cleared (size 0). -/
theorem c6_counterexample :
    (text_editor_buffer.load_from_file none ⟨['x'], 1, true⟩).2.size ≠ 0 := by
  decide

/-- C9: `delete_text(pos, count)` with `pos < size()` removes
`min(count, size() - pos)` characters starting at `pos`; a cursor at or
after the end of the removed range shifts left by the removed count, a
cursor strictly inside the range is clamped to `pos`, and a cursor at or
before `pos` is unchanged. -/
theorem c9_delete_text (st : text_editor_buffer) (pos count : Nat) (h : pos < st.size) :
    (st.delete_text pos count).content =
      st.content.take pos ++ st.content.drop (pos + min count (st.size - pos)) ∧
    (st.cursor_pos ≤ pos → (st.delete_text pos count).cursor_pos = st.cursor_pos) ∧
    (pos + min count (st.size - pos) ≤ st.cursor_pos →
      (st.delete_text pos count).cursor_pos = st.cursor_pos - min count (st.size - pos)) ∧
    (pos < st.cursor_pos → st.cursor_pos < pos + min count (st.size - pos) →
      (st.delete_text pos count).cursor_pos = pos) := by
  unfold text_editor_buffer.delete_text
  by_cases hguard : pos ≥ st.size ∨ count = 0
  · have hc : count = 0 := by omega
    rw [if_pos hguard]
    subst hc
    refine ⟨?_, ?_, ?_, ?_⟩
    · simp [List.take_append_drop]
    · intro _
      rfl
    · intro h2
      simp only [Nat.zero_min] at h2 ⊢
      omega
    · intro h1 h2
      simp only [Nat.zero_min] at h2
      omega
  · rw [if_neg hguard]
    push_neg at hguard
    refine ⟨rfl, ?_, ?_, ?_⟩ <;>
      · intros
        dsimp only
        repeat' split
        all_goals omega

/-- C9 witness: a concrete instance of `c9_delete_text` — buffer `"abcd"`
with cursor 3, `delete_text(1, 2)` removes two characters and shifts the
cursor left to 1. -/
theorem c9_delete_text_witness :
    1 < (⟨['a', 'b', 'c', 'd'], 3, true⟩ : text_editor_buffer).size ∧
    ((⟨['a', 'b', 'c', 'd'], 3, true⟩ : text_editor_buffer).delete_text 1 2).cursor_pos = 1 :=
  ⟨by decide,
    (c9_delete_text ⟨['a', 'b', 'c', 'd'], 3, true⟩ 1 2 (by decide)).2.2.1 (by decide)⟩

namespace text_editor_buffer

theorem convert_nonterm (t : line_ending_type) (c : Char) (u : List Char)
    (h1 : c ≠ '\r') (h2 : c ≠ '\n') :
    convert_content t (c :: u) = c :: convert_content t u := by
  cases u <;> simp [convert_content, h1, h2]

theorem no_lf_in_convert_CR (s : List Char) : '\n' ∉ convert_content .CR s := by
  induction s using convert_content.induct .CR with
  | case1 => simp [convert_content]
  | case2 c h =>
    rcases h with h | h <;> simp [convert_content, h, target_ending]
  | case3 c h =>
    push_neg at h
    simp [convert_content, h.1, h.2]
    exact fun heq => h.2 heq.symm
  | case4 rest ih =>
    simp [convert_content, target_ending]
    exact ih
  | case5 c2 rest h ih =>
    simp [convert_content, h, target_ending]
    exact ih
  | case6 c2 rest h ih =>
    simp [convert_content, target_ending]
    exact ih
  | case7 c c2 rest h1 h2 ih =>
    simp [convert_content, h1, h2]
    exact ⟨fun heq => h2 heq.symm, ih⟩

theorem convert_target_append (t : line_ending_type) (u : List Char)
    (h : t = .CR → '\n' ∉ u) :
    convert_content t (target_ending t ++ u) = target_ending t ++ convert_content t u := by
  cases t with
  | LF => cases u <;> simp [target_ending, convert_content]
  | CRLF => simp [target_ending, convert_content]
  | CR =>
    cases u with
    | nil => simp [target_ending, convert_content]
    | cons d v =>
      have hd : d ≠ '\n' := by
        intro hdeq
        exact (h rfl) (by simp [hdeq])
      simp [target_ending, convert_content, hd]

theorem convert_content_idem (t : line_ending_type) (s : List Char) :
    convert_content t (convert_content t s) = convert_content t s := by
  induction s using convert_content.induct t with
  | case1 => simp [convert_content]
  | case2 c h =>
    have h2 : convert_content t [c] = target_ending t := by
      rcases h with h | h <;> simp [convert_content, h]
    rw [h2]
    cases t <;> simp [convert_content, target_ending]
  | case3 c h =>
    push_neg at h
    have h2 : convert_content t [c] = [c] := by simp [convert_content, h.1, h.2]
    rw [h2, h2]
  | case4 rest ih =>
    have he : convert_content t ('\r' :: '\n' :: rest) =
        target_ending t ++ convert_content t rest := by
      simp [convert_content]
    rw [he, convert_target_append, ih]
    intro ht
    subst ht
    exact no_lf_in_convert_CR rest
  | case5 c2 rest h ih =>
    have he : convert_content t ('\r' :: c2 :: rest) =
        target_ending t ++ convert_content t (c2 :: rest) := by
      simp [convert_content, h]
    rw [he, convert_target_append, ih]
    intro ht
    subst ht
    exact no_lf_in_convert_CR _
  | case6 c2 rest h ih =>
    have he : convert_content t ('\n' :: c2 :: rest) =
        target_ending t ++ convert_content t (c2 :: rest) := by
      simp [convert_content]
    rw [he, convert_target_append, ih]
    intro ht
    subst ht
    exact no_lf_in_convert_CR _
  | case7 c c2 rest h1 h2 ih =>
    have he : convert_content t (c :: c2 :: rest) = c :: convert_content t (c2 :: rest) := by
      simp [convert_content, h1, h2]
    rw [he, convert_nonterm t c _ h1 h2, ih]

end text_editor_buffer

/-- C7: `convert_line_endings(X)` is idempotent for every target X in
{LF, CRLF, CR} and every starting content mixing the three terminator
kinds: applying it twice yields content identical to applying it once. -/
theorem c7_convert_idempotent (st : text_editor_buffer) (t : text_editor_buffer.line_ending_type) :
    ((st.convert_line_endings t).convert_line_endings t).content =
      (st.convert_line_endings t).content := by
  simp [text_editor_buffer.convert_line_endings, text_editor_buffer.convert_content_idem]

namespace gap_buffer

theorem logical_length {T : Type u} (b : gap_buffer T) (h : b.WF) :
    b.logical.length = b.size := by
  obtain ⟨h1, h2⟩ := h
  simp only [logical, size, List.length_append, List.length_take, List.length_drop]
  omega

theorem read_eq_logical {T : Type u} (b : gap_buffer T) (h : b.WF) (p : Nat) :
    b.read p = b.logical.getD p none := by
  obtain ⟨h1, h2⟩ := h
  have htl : (b.buffer.take b.gap_start).length = b.gap_start := by
    simp only [List.length_take]
    omega
  by_cases hps : p ≥ b.gap_start
  · rw [read, if_pos hps, logical, List.getD_eq_getElem?_getD, List.getD_eq_getElem?_getD,
      List.getElem?_append_right (by rw [htl]; exact hps), htl, List.getElem?_drop]
    have heq : b.gap_end + (p - b.gap_start) = p + (b.gap_end - b.gap_start) := by omega
    rw [heq]
  · push_neg at hps
    rw [read, if_neg (by omega), logical, List.getD_eq_getElem?_getD, List.getD_eq_getElem?_getD,
      List.getElem?_append, if_pos (by rw [htl]; exact hps), List.getElem?_take, if_pos hps]

end gap_buffer

/-- C10: for any two gap buffers over the same element type, `operator==`
returns true exactly when their logical sequences are equal — the same
sequence of slots when the live prefix and live suffix are read in logical
order — independently of where each buffer's gap sits and of their
allocated capacities (the two sides of the equivalence may have different
`gap_start`/`gap_end`/`buffer_size`). -/
theorem c10_equals_iff {T : Type u} [DecidableEq T] (l r : gap_buffer T)
    (hl : l.WF) (hr : r.WF) :
    (l.equals r = true) ↔ l.logical = r.logical := by
  unfold gap_buffer.equals
  by_cases hs : l.size = r.size
  · rw [if_neg (by simp [hs])]
    constructor
    · intro hall
      rw [List.all_eq_true] at hall
      have hlen : l.logical.length = r.logical.length := by
        rw [gap_buffer.logical_length l hl, gap_buffer.logical_length r hr, hs]
      apply List.ext_getElem hlen
      intro n hn1 hn2
      have hn : n < l.size := by rw [← gap_buffer.logical_length l hl]; exact hn1
      have hread := hall n (List.mem_range.2 hn)
      rw [decide_eq_true_iff] at hread
      rw [gap_buffer.read_eq_logical l hl n, gap_buffer.read_eq_logical r hr n,
        List.getD_eq_getElem l.logical none hn1, List.getD_eq_getElem r.logical none hn2] at hread
      exact hread
    · intro hlog
      rw [List.all_eq_true]
      intro n hnmem
      rw [decide_eq_true_iff, gap_buffer.read_eq_logical l hl n,
        gap_buffer.read_eq_logical r hr n, hlog]
  · rw [if_pos (by simp [hs])]
    constructor
    · intro hfalse
      exact absurd hfalse (by simp)
    · intro hlog
      have hll : l.logical.length = r.logical.length := by rw [hlog]
      rw [gap_buffer.logical_length l hl, gap_buffer.logical_length r hr] at hll
      exact absurd hll hs

/-- C10 witness: two concrete well-formed buffers holding the sequence
`1, 2` with the gap in different places and different capacities, compared
through `c10_equals_iff`. -/
theorem c10_equals_iff_witness :
    (⟨[some 1, none, some 2], 1, 2⟩ : gap_buffer Nat).WF ∧
    (⟨[some 1, some 2, none, none], 2, 4⟩ : gap_buffer Nat).WF ∧
    ((⟨[some 1, none, some 2], 1, 2⟩ : gap_buffer Nat).equals
        ⟨[some 1, some 2, none, none], 2, 4⟩ = true ↔
      gap_buffer.logical (⟨[some 1, none, some 2], 1, 2⟩ : gap_buffer Nat) =
        gap_buffer.logical (⟨[some 1, some 2, none, none], 2, 4⟩ : gap_buffer Nat)) :=
  ⟨by decide, by decide, c10_equals_iff _ _ (by decide) (by decide)⟩

namespace text_editor_buffer

theorem find_text_spec (st : text_editor_buffer) (needle : List Char) (start p : Nat)
    (h : st.find_text needle start = some p) :
    start ≤ p ∧ needle.length + p ≤ st.size := by
  unfold find_text at h
  split at h
  · simp at h
  · have hmem := List.mem_of_find?_eq_some h
    have hpred := List.find?_some h
    rw [List.mem_range'_1] at hmem
    have hpre := List.isPrefixOf_iff_prefix.1 hpred
    have hlen := hpre.length_le
    rw [List.length_drop] at hlen
    exact ⟨hmem.1, by simp only [size] at *; omega⟩

theorem replace_text_size (st : text_editor_buffer) (p nl : Nat) (rep : List Char)
    (h1 : 1 ≤ nl) (h2 : p + nl ≤ st.size) :
    (st.replace_text p nl rep).size = st.size - nl + rep.length := by
  unfold replace_text delete_text
  rw [if_neg (by omega)]
  unfold insert_text
  by_cases hrep : rep = []
  · rw [if_pos hrep]
    subst hrep
    simp only [size, List.length_append, List.length_take, List.length_drop,
      List.length_nil] at *
    omega
  · rw [if_neg hrep]
    simp only [size, List.length_append, List.length_take, List.length_drop] at *
    omega

theorem replace_all_loop_some (needle rep : List Char) (hn : needle ≠ []) :
    ∀ (fuel : Nat) (st : text_editor_buffer) (pos count : Nat),
      pos ≤ st.size → st.size < fuel + pos →
      (replace_all_loop needle rep fuel st pos count).isSome = true := by
  intro fuel
  induction fuel with
  | zero =>
    intro st pos count h1 h2
    omega
  | succ fuel ih =>
    intro st pos count h1 h2
    rw [replace_all_loop]
    cases hft : st.find_text needle pos with
    | none => simp
    | some p =>
      have hspec := find_text_spec st needle pos p hft
      have hnl : 1 ≤ needle.length := List.length_pos.2 hn
      have hsz := replace_text_size st p needle.length rep hnl (by omega)
      simp only
      split
      · split
        · simp
        · apply ih <;> omega
      · split
        · simp
        · apply ih <;> omega

end text_editor_buffer

/-- C3 (amended): `replace_all` always terminates, for every buffer, needle
and replacement — the scan position moves strictly forward each iteration,
the zero-width advance of an empty replacement being forced forward by one —
and it returns the number of replacements it performed. But the forced
advance skips the character now at the match position, so on a buffer
holding `"aaa"`, `replace_all("a", "")` terminates with return value 2 and
leaves the buffer holding `"a"`, size 1 (not 3 and size 0): after the
second replacement the scan position 2 is at or past the remaining size 1
and the loop stops before the last `"a"` is found. -/
theorem c3_replace_all :
    (∀ (st : text_editor_buffer) (needle rep : List Char),
      (st.replace_all needle rep).isSome = true) ∧
    text_editor_buffer.replace_all ⟨['a', 'a', 'a'], 0, false⟩ ['a'] [] =
      some (⟨['a'], 0, false⟩, 2) := by
  constructor
  · intro st needle rep
    unfold text_editor_buffer.replace_all
    split
    · simp
    · exact text_editor_buffer.replace_all_loop_some needle rep (by assumption)
        (st.size + 1) st 0 0 (Nat.zero_le _) (by omega)
  · decide

/-- C3, counterexample to the claim as stated: on the buffer `"aaa"`,
`replace_all("a", "")` does not return 3 with final size 0 — it returns 2
and leaves size 1. -/
theorem c3_counterexample :
    (text_editor_buffer.replace_all ⟨['a', 'a', 'a'], 0, false⟩ ['a'] []).map
      (fun r => (r.2, r.1.size)) ≠ some (3, 0) := by
  decide

theorem nat_lor_shift (y n d : Nat) (h : d < 2 ^ n) : (y <<< n) ||| d = y * 2 ^ n + d := by
  apply Nat.eq_of_testBit_eq
  intro i
  rw [Nat.testBit_lor, Nat.testBit_shiftLeft]
  by_cases hni : n ≤ i
  · have hd : d.testBit i = false :=
      Nat.testBit_lt_two_pow (lt_of_lt_of_le h (Nat.pow_le_pow_right (by norm_num) hni))
    have hge : decide (i ≥ n) = true := by simp [ge_iff_le, hni]
    rw [hd, hge, Bool.true_and, Bool.or_false]
    rw [Nat.testBit_to_div_mod, Nat.testBit_to_div_mod]
    have h2 : (y * 2 ^ n + d) / 2 ^ i = y / 2 ^ (i - n) := by
      have hi : 2 ^ i = 2 ^ n * 2 ^ (i - n) := by
        rw [← pow_add]
        congr 1
        omega
      rw [hi, ← Nat.div_div_eq_div_mul]
      have h3 : (y * 2 ^ n + d) / 2 ^ n = y + d / 2 ^ n := by
        rw [Nat.mul_comm y]
        exact Nat.mul_add_div (Nat.pos_pow_of_pos n (by norm_num)) y d
      rw [h3, Nat.div_eq_of_lt h, Nat.add_zero]
    rw [h2]
  · have hge : decide (i ≥ n) = false := by simp [ge_iff_le, hni]
    rw [hge, Bool.false_and, Bool.false_or]
    rw [Nat.testBit_to_div_mod, Nat.testBit_to_div_mod]
    have hin : i + (n - i) = n := by omega
    have hy : y * 2 ^ n = 2 ^ i * (y * 2 ^ (n - i)) := by
      calc y * 2 ^ n = y * 2 ^ (i + (n - i)) := by rw [hin]
        _ = 2 ^ i * (y * 2 ^ (n - i)) := by rw [pow_add]; ring
    rw [hy, Nat.mul_add_div (Nat.pos_pow_of_pos i (by norm_num))]
    have hsucc : n - i - 1 + 1 = n - i := by omega
    have h2 : y * 2 ^ (n - i) = y * 2 ^ (n - i - 1) * 2 := by
      calc y * 2 ^ (n - i) = y * 2 ^ (n - i - 1 + 1) := by rw [hsucc]
        _ = y * 2 ^ (n - i - 1) * 2 := by rw [pow_succ]; ring
    rw [h2, Nat.add_comm, Nat.add_mul_mod_self_right]

theorem nat_shiftLeft_lor (x y n : Nat) : (x ||| y) <<< n = (x <<< n) ||| (y <<< n) := by
  apply Nat.eq_of_testBit_eq
  intro i
  rw [Nat.testBit_shiftLeft, Nat.testBit_lor, Nat.testBit_lor, Nat.testBit_shiftLeft,
    Nat.testBit_shiftLeft]
  cases h : decide (i ≥ n) <;> simp [Bool.and_or_distrib_left]

theorem utf8_cp2 (a b : Nat) (hb : b < 64) : (a <<< 6) ||| b = a * 64 + b := by
  have h := nat_lor_shift a 6 b (by omega)
  norm_num at h
  exact h

theorem utf8_cp3 (a b c : Nat) (hb : b < 64) (hc : c < 64) :
    ((a <<< 12) ||| (b <<< 6)) ||| c = a * 4096 + b * 64 + c := by
  have hsplit : a <<< 12 = (a <<< 6) <<< 6 := by
    rw [Nat.shiftLeft_eq, Nat.shiftLeft_eq, Nat.shiftLeft_eq]
    ring
  rw [hsplit, ← nat_shiftLeft_lor, utf8_cp2 a b hb, utf8_cp2 _ c hc]
  ring

theorem utf8_cp4 (a b c d : Nat) (hb : b < 64) (hc : c < 64) (hd : d < 64) :
    (((a <<< 18) ||| (b <<< 12)) ||| (c <<< 6)) ||| d =
      a * 262144 + b * 4096 + c * 64 + d := by
  have hs18 : a <<< 18 = (a <<< 6) <<< 12 := by
    rw [Nat.shiftLeft_eq, Nat.shiftLeft_eq, Nat.shiftLeft_eq]
    ring
  have hs12 : ∀ z : Nat, z <<< 12 = (z <<< 6) <<< 6 := by
    intro z
    rw [Nat.shiftLeft_eq, Nat.shiftLeft_eq, Nat.shiftLeft_eq]
    ring
  rw [hs18, ← nat_shiftLeft_lor, utf8_cp2 a b hb, hs12, ← nat_shiftLeft_lor,
    utf8_cp2 _ c hc, utf8_cp2 _ d hd]
  ring

theorem byte_mask_cont : ∀ b < 256, ((b &&& 192 = 128) ↔ (128 ≤ b ∧ b < 192)) := by decide
theorem byte_low6 : ∀ b < 256, 128 ≤ b → b < 192 → b &&& 63 = b - 128 := by decide
theorem byte_low5 : ∀ b < 256, 192 ≤ b → b < 224 → b &&& 31 = b - 192 := by decide
theorem byte_low4 : ∀ b < 256, 224 ≤ b → b < 240 → b &&& 15 = b - 224 := by decide
theorem byte_low3 : ∀ b < 256, 240 ≤ b → b < 248 → b &&& 7 = b - 240 := by decide
theorem utf8_len_cases : ∀ ch < 256,
    (ch < 128 ∧ text_editor_buffer.utf8_char_length ch = 1) ∨
    (192 ≤ ch ∧ ch < 224 ∧ text_editor_buffer.utf8_char_length ch = 2) ∨
    (224 ≤ ch ∧ ch < 240 ∧ text_editor_buffer.utf8_char_length ch = 3) ∨
    (240 ≤ ch ∧ ch < 248 ∧ text_editor_buffer.utf8_char_length ch = 4) ∨
    text_editor_buffer.utf8_char_length ch = 0 := by decide

namespace text_editor_buffer

theorem ok_one (ch : Nat) (rest : List Nat) (hlen : utf8_char_length ch = 1) :
    utf8_ok_at ch rest = true := by
  unfold utf8_ok_at
  rw [hlen]
  simp

theorem ok_two (ch c1 : Nat) (rest' : List Nat) (hlen : utf8_char_length ch = 2) :
    utf8_ok_at ch (c1 :: rest') =
      (is_utf8_continuation c1 && decide (128 ≤ (((ch &&& 31) <<< 6) ||| (c1 &&& 63)))) := by
  unfold utf8_ok_at
  rw [hlen]
  by_cases hx : is_utf8_continuation c1 = true <;>
    simp [hx, List.getD_cons_zero]

theorem ok_two_nil (ch : Nat) (hlen : utf8_char_length ch = 2) :
    utf8_ok_at ch [] = false := by
  unfold utf8_ok_at
  rw [hlen]
  simp

theorem ok_three (ch c1 c2 : Nat) (rest' : List Nat) (hlen : utf8_char_length ch = 3) :
    utf8_ok_at ch (c1 :: c2 :: rest') =
      (is_utf8_continuation c1 && (is_utf8_continuation c2 &&
        decide (2048 ≤ ((((ch &&& 15) <<< 12) ||| ((c1 &&& 63) <<< 6)) ||| (c2 &&& 63)) ∧
          ¬ (55296 ≤ ((((ch &&& 15) <<< 12) ||| ((c1 &&& 63) <<< 6)) ||| (c2 &&& 63)) ∧
            ((((ch &&& 15) <<< 12) ||| ((c1 &&& 63) <<< 6)) ||| (c2 &&& 63)) ≤ 57343)))) := by
  unfold utf8_ok_at
  rw [hlen]
  by_cases hx : is_utf8_continuation c1 = true <;>
    by_cases hy : is_utf8_continuation c2 = true <;>
      simp [hx, hy, List.getD_cons_zero, List.getD_cons_succ]

theorem ok_three_short (ch : Nat) (rest : List Nat) (hlen : utf8_char_length ch = 3)
    (hshort : rest.length < 2) : utf8_ok_at ch rest = false := by
  unfold utf8_ok_at
  rw [hlen]
  rw [if_neg (by omega), if_pos (by omega)]

theorem ok_four (ch c1 c2 c3 : Nat) (rest' : List Nat) (hlen : utf8_char_length ch = 4) :
    utf8_ok_at ch (c1 :: c2 :: c3 :: rest') =
      (is_utf8_continuation c1 && (is_utf8_continuation c2 && (is_utf8_continuation c3 &&
        decide (65536 ≤ (((((ch &&& 7) <<< 18) ||| ((c1 &&& 63) <<< 12)) |||
            ((c2 &&& 63) <<< 6)) ||| (c3 &&& 63)) ∧
          (((((ch &&& 7) <<< 18) ||| ((c1 &&& 63) <<< 12)) |||
            ((c2 &&& 63) <<< 6)) ||| (c3 &&& 63)) ≤ 1114111)))) := by
  unfold utf8_ok_at
  rw [hlen]
  by_cases hx : is_utf8_continuation c1 = true <;>
    by_cases hy : is_utf8_continuation c2 = true <;>
      by_cases hz : is_utf8_continuation c3 = true <;>
        simp [hx, hy, hz, List.getD_cons_zero, List.getD_cons_succ]

theorem ok_four_short (ch : Nat) (rest : List Nat) (hlen : utf8_char_length ch = 4)
    (hshort : rest.length < 3) : utf8_ok_at ch rest = false := by
  unfold utf8_ok_at
  rw [hlen]
  rw [if_neg (by omega), if_pos (by omega)]

theorem ok_zero (ch : Nat) (rest : List Nat) (hlen : utf8_char_length ch = 0) :
    utf8_ok_at ch rest = false := by
  unfold utf8_ok_at
  rw [hlen]
  simp

end text_editor_buffer

theorem valid_utf8_sound : ∀ (n : Nat) (bytes : List Nat), bytes.length ≤ n →
    (∀ b ∈ bytes, b < 256) → text_editor_buffer.is_valid_utf8 bytes = true → SpecUtf8 bytes := by
  intro n
  induction n with
  | zero =>
    intro bytes hlen _ _
    have hb : bytes = [] := List.eq_nil_of_length_eq_zero (Nat.le_zero.1 hlen)
    rw [hb]
    exact SpecUtf8.nil
  | succ n ih =>
    intro bytes hlen hbound hvalid
    cases bytes with
    | nil => exact SpecUtf8.nil
    | cons ch rest =>
      rw [text_editor_buffer.is_valid_utf8] at hvalid
      by_cases hok : text_editor_buffer.utf8_ok_at ch rest = true
      case neg =>
        rw [if_neg hok] at hvalid
        exact absurd hvalid (by simp)
      case pos =>
      rw [if_pos hok] at hvalid
      have hch : ch < 256 := hbound ch (by simp)
      rcases utf8_len_cases ch hch with ⟨hr, hlen1⟩ | ⟨hr1, hr2, hlen2⟩ |
        ⟨hr1, hr2, hlen3⟩ | ⟨hr1, hr2, hlen4⟩ | hlen0
      · rw [hlen1] at hvalid
        norm_num [List.drop_zero] at hvalid
        have hrest : SpecUtf8 rest :=
          ih rest (by simp at hlen; omega) (fun b hb => hbound b (by simp [hb])) hvalid
        have henc : encodeUtf8 ch = [ch] := by rw [encodeUtf8, if_pos hr]
        have hs := SpecUtf8.cons ch rest ⟨by omega, by omega⟩ hrest
        rwa [henc] at hs
      · cases rest with
        | nil =>
          rw [text_editor_buffer.ok_two_nil ch hlen2] at hok
          exact absurd hok (by simp)
        | cons c1 rest' =>
          rw [text_editor_buffer.ok_two ch c1 rest' hlen2, Bool.and_eq_true] at hok
          obtain ⟨hcont, hcp⟩ := hok
          simp only [text_editor_buffer.is_utf8_continuation, beq_iff_eq] at hcont
          have hc1 : c1 < 256 := hbound c1 (by simp)
          have hc1b := (byte_mask_cont c1 hc1).1 hcont
          have hrw : (((ch &&& 31) <<< 6) ||| (c1 &&& 63)) = (ch - 192) * 64 + (c1 - 128) := by
            rw [byte_low5 ch hch hr1 hr2, byte_low6 c1 hc1 hc1b.1 hc1b.2]
            exact utf8_cp2 _ _ (by omega)
          rw [decide_eq_true_iff, hrw] at hcp
          rw [hlen2] at hvalid
          norm_num [List.drop_succ_cons, List.drop_zero] at hvalid
          have hrest : SpecUtf8 rest' :=
            ih rest' (by simp at hlen; omega) (fun b hb => hbound b (by simp [hb])) hvalid
          have hval : ValidScalar ((ch - 192) * 64 + (c1 - 128)) := ⟨by omega, by omega⟩
          have henc : encodeUtf8 ((ch - 192) * 64 + (c1 - 128)) = [ch, c1] := by
            rw [encodeUtf8, if_neg (by omega), if_pos (by omega)]
            have e1 : 192 + ((ch - 192) * 64 + (c1 - 128)) / 64 = ch := by omega
            have e2 : 128 + ((ch - 192) * 64 + (c1 - 128)) % 64 = c1 := by omega
            rw [e1, e2]
          have hs := SpecUtf8.cons _ rest' hval hrest
          rwa [henc] at hs
      · cases rest with
        | nil =>
          rw [text_editor_buffer.ok_three_short ch [] hlen3 (by simp)] at hok
          exact absurd hok (by simp)
        | cons c1 rest1 =>
          cases rest1 with
          | nil =>
            rw [text_editor_buffer.ok_three_short ch [c1] hlen3 (by simp)] at hok
            exact absurd hok (by simp)
          | cons c2 rest' =>
            rw [text_editor_buffer.ok_three ch c1 c2 rest' hlen3, Bool.and_eq_true,
              Bool.and_eq_true] at hok
            obtain ⟨hcont1, hcont2, hcp⟩ := hok
            simp only [text_editor_buffer.is_utf8_continuation, beq_iff_eq] at hcont1 hcont2
            have hc1 : c1 < 256 := hbound c1 (by simp)
            have hc2 : c2 < 256 := hbound c2 (by simp)
            have hc1b := (byte_mask_cont c1 hc1).1 hcont1
            have hc2b := (byte_mask_cont c2 hc2).1 hcont2
            have hrw : ((((ch &&& 15) <<< 12) ||| ((c1 &&& 63) <<< 6)) ||| (c2 &&& 63)) =
                (ch - 224) * 4096 + (c1 - 128) * 64 + (c2 - 128) := by
              rw [byte_low4 ch hch hr1 hr2, byte_low6 c1 hc1 hc1b.1 hc1b.2,
                byte_low6 c2 hc2 hc2b.1 hc2b.2]
              exact utf8_cp3 _ _ _ (by omega) (by omega)
            rw [decide_eq_true_iff, hrw] at hcp
            rw [hlen3] at hvalid
            norm_num [List.drop_succ_cons, List.drop_zero] at hvalid
            have hrest : SpecUtf8 rest' :=
              ih rest' (by simp at hlen; omega) (fun b hb => hbound b (by simp [hb])) hvalid
            have hval : ValidScalar ((ch - 224) * 4096 + (c1 - 128) * 64 + (c2 - 128)) :=
              ⟨by omega, hcp.2⟩
            have henc : encodeUtf8 ((ch - 224) * 4096 + (c1 - 128) * 64 + (c2 - 128)) =
                [ch, c1, c2] := by
              rw [encodeUtf8, if_neg (by omega), if_neg (by omega), if_pos (by omega)]
              have e1 : 224 + ((ch - 224) * 4096 + (c1 - 128) * 64 + (c2 - 128)) / 4096 = ch := by
                omega
              have e2 : 128 + ((ch - 224) * 4096 + (c1 - 128) * 64 + (c2 - 128)) / 64 % 64 =
                  c1 := by omega
              have e3 : 128 + ((ch - 224) * 4096 + (c1 - 128) * 64 + (c2 - 128)) % 64 = c2 := by
                omega
              rw [e1, e2, e3]
            have hs := SpecUtf8.cons _ rest' hval hrest
            rwa [henc] at hs
      · cases rest with
        | nil =>
          rw [text_editor_buffer.ok_four_short ch [] hlen4 (by simp)] at hok
          exact absurd hok (by simp)
        | cons c1 rest1 =>
          cases rest1 with
          | nil =>
            rw [text_editor_buffer.ok_four_short ch [c1] hlen4 (by simp)] at hok
            exact absurd hok (by simp)
          | cons c2 rest2 =>
            cases rest2 with
            | nil =>
              rw [text_editor_buffer.ok_four_short ch [c1, c2] hlen4 (by simp)] at hok
              exact absurd hok (by simp)
            | cons c3 rest' =>
              rw [text_editor_buffer.ok_four ch c1 c2 c3 rest' hlen4, Bool.and_eq_true,
                Bool.and_eq_true, Bool.and_eq_true] at hok
              obtain ⟨hcont1, hcont2, hcont3, hcp⟩ := hok
              simp only [text_editor_buffer.is_utf8_continuation,
                beq_iff_eq] at hcont1 hcont2 hcont3
              have hc1 : c1 < 256 := hbound c1 (by simp)
              have hc2 : c2 < 256 := hbound c2 (by simp)
              have hc3 : c3 < 256 := hbound c3 (by simp)
              have hc1b := (byte_mask_cont c1 hc1).1 hcont1
              have hc2b := (byte_mask_cont c2 hc2).1 hcont2
              have hc3b := (byte_mask_cont c3 hc3).1 hcont3
              have hrw : (((((ch &&& 7) <<< 18) ||| ((c1 &&& 63) <<< 12)) |||
                  ((c2 &&& 63) <<< 6)) ||| (c3 &&& 63)) =
                  (ch - 240) * 262144 + (c1 - 128) * 4096 + (c2 - 128) * 64 + (c3 - 128) := by
                rw [byte_low3 ch hch hr1 hr2, byte_low6 c1 hc1 hc1b.1 hc1b.2,
                  byte_low6 c2 hc2 hc2b.1 hc2b.2, byte_low6 c3 hc3 hc3b.1 hc3b.2]
                exact utf8_cp4 _ _ _ _ (by omega) (by omega) (by omega)
              rw [decide_eq_true_iff, hrw] at hcp
              rw [hlen4] at hvalid
              norm_num [List.drop_succ_cons, List.drop_zero] at hvalid
              have hrest : SpecUtf8 rest' :=
                ih rest' (by simp at hlen; omega) (fun b hb => hbound b (by simp [hb])) hvalid
              have hval : ValidScalar ((ch - 240) * 262144 + (c1 - 128) * 4096 +
                  (c2 - 128) * 64 + (c3 - 128)) := ⟨hcp.2, by omega⟩
              have henc : encodeUtf8 ((ch - 240) * 262144 + (c1 - 128) * 4096 +
                  (c2 - 128) * 64 + (c3 - 128)) = [ch, c1, c2, c3] := by
                rw [encodeUtf8, if_neg (by omega), if_neg (by omega), if_neg (by omega)]
                have e1 : 240 + ((ch - 240) * 262144 + (c1 - 128) * 4096 +
                    (c2 - 128) * 64 + (c3 - 128)) / 262144 = ch := by omega
                have e2 : 128 + ((ch - 240) * 262144 + (c1 - 128) * 4096 +
                    (c2 - 128) * 64 + (c3 - 128)) / 4096 % 64 = c1 := by omega
                have e3 : 128 + ((ch - 240) * 262144 + (c1 - 128) * 4096 +
                    (c2 - 128) * 64 + (c3 - 128)) / 64 % 64 = c2 := by omega
                have e4 : 128 + ((ch - 240) * 262144 + (c1 - 128) * 4096 +
                    (c2 - 128) * 64 + (c3 - 128)) % 64 = c3 := by omega
                rw [e1, e2, e3, e4]
              have hs := SpecUtf8.cons _ rest' hval hrest
              rwa [henc] at hs
      · rw [text_editor_buffer.ok_zero ch rest hlen0] at hok
        exact absurd hok (by simp)

theorem enc2_len : ∀ x < 32, text_editor_buffer.utf8_char_length (192 + x) = 2 := by decide
theorem enc3_len : ∀ x < 16, text_editor_buffer.utf8_char_length (224 + x) = 3 := by decide
theorem enc4_len : ∀ x < 8, text_editor_buffer.utf8_char_length (240 + x) = 4 := by decide
theorem enc_cont : ∀ x < 64, text_editor_buffer.is_utf8_continuation (128 + x) = true := by decide
theorem enc2_low : ∀ x < 32, (192 + x) &&& 31 = x := by decide
theorem enc3_low : ∀ x < 16, (224 + x) &&& 15 = x := by decide
theorem enc4_low : ∀ x < 8, (240 + x) &&& 7 = x := by decide
theorem enc_cont_low : ∀ x < 64, (128 + x) &&& 63 = x := by decide

theorem valid_utf8_complete (bytes : List Nat) (hspec : SpecUtf8 bytes) :
    text_editor_buffer.is_valid_utf8 bytes = true := by
  induction hspec with
  | nil => rw [text_editor_buffer.is_valid_utf8]
  | cons cp rest hval _hrest ih =>
    obtain ⟨hmax, hsurr⟩ := hval
    by_cases h1 : cp < 128
    · have henc : encodeUtf8 cp = [cp] := by rw [encodeUtf8, if_pos h1]
      rw [henc]
      simp only [List.cons_append, List.nil_append]
      have hlen : text_editor_buffer.utf8_char_length cp = 1 := by
        unfold text_editor_buffer.utf8_char_length
        rw [if_pos h1]
      rw [text_editor_buffer.is_valid_utf8,
        if_pos (text_editor_buffer.ok_one cp rest hlen), hlen]
      norm_num [List.drop_zero]
      exact ih
    · by_cases h2 : cp < 2048
      · have henc : encodeUtf8 cp = [192 + cp / 64, 128 + cp % 64] := by
          rw [encodeUtf8, if_neg h1, if_pos h2]
        rw [henc]
        simp only [List.cons_append, List.nil_append]
        have hd : cp / 64 < 32 := by omega
        have hm : cp % 64 < 64 := by omega
        have hlen : text_editor_buffer.utf8_char_length (192 + cp / 64) = 2 := enc2_len _ hd
        have hcp' : (((192 + cp / 64) &&& 31) <<< 6) ||| ((128 + cp % 64) &&& 63) = cp := by
          rw [enc2_low _ hd, enc_cont_low _ hm, utf8_cp2 _ _ hm]
          omega
        have hok : text_editor_buffer.utf8_ok_at (192 + cp / 64) ((128 + cp % 64) :: rest) =
            true := by
          rw [text_editor_buffer.ok_two _ _ _ hlen, enc_cont _ hm, hcp']
          simp only [Bool.true_and, decide_eq_true_iff]
          omega
        rw [text_editor_buffer.is_valid_utf8, if_pos hok, hlen]
        norm_num [List.drop_succ_cons, List.drop_zero]
        exact ih
      · by_cases h3 : cp < 65536
        · have henc : encodeUtf8 cp = [224 + cp / 4096, 128 + cp / 64 % 64, 128 + cp % 64] := by
            rw [encodeUtf8, if_neg h1, if_neg h2, if_pos h3]
          rw [henc]
          simp only [List.cons_append, List.nil_append]
          have hd : cp / 4096 < 16 := by omega
          have hm1 : cp / 64 % 64 < 64 := by omega
          have hm2 : cp % 64 < 64 := by omega
          have hlen : text_editor_buffer.utf8_char_length (224 + cp / 4096) = 3 := enc3_len _ hd
          have hcp' : ((((224 + cp / 4096) &&& 15) <<< 12) |||
              (((128 + cp / 64 % 64) &&& 63) <<< 6)) ||| ((128 + cp % 64) &&& 63) = cp := by
            rw [enc3_low _ hd, enc_cont_low _ hm1, enc_cont_low _ hm2,
              utf8_cp3 _ _ _ hm1 hm2]
            omega
          have hok : text_editor_buffer.utf8_ok_at (224 + cp / 4096)
              ((128 + cp / 64 % 64) :: (128 + cp % 64) :: rest) = true := by
            rw [text_editor_buffer.ok_three _ _ _ _ hlen, enc_cont _ hm1, enc_cont _ hm2,
              hcp']
            simp only [Bool.true_and, decide_eq_true_iff]
            exact ⟨by omega, hsurr⟩
          rw [text_editor_buffer.is_valid_utf8, if_pos hok, hlen]
          norm_num [List.drop_succ_cons, List.drop_zero]
          exact ih
        · have henc : encodeUtf8 cp =
              [240 + cp / 262144, 128 + cp / 4096 % 64, 128 + cp / 64 % 64, 128 + cp % 64] := by
            rw [encodeUtf8, if_neg h1, if_neg h2, if_neg h3]
          rw [henc]
          simp only [List.cons_append, List.nil_append]
          have hd : cp / 262144 < 8 := by omega
          have hm1 : cp / 4096 % 64 < 64 := by omega
          have hm2 : cp / 64 % 64 < 64 := by omega
          have hm3 : cp % 64 < 64 := by omega
          have hlen : text_editor_buffer.utf8_char_length (240 + cp / 262144) = 4 :=
            enc4_len _ hd
          have hcp' : (((((240 + cp / 262144) &&& 7) <<< 18) |||
              (((128 + cp / 4096 % 64) &&& 63) <<< 12)) |||
              (((128 + cp / 64 % 64) &&& 63) <<< 6)) ||| ((128 + cp % 64) &&& 63) = cp := by
            rw [enc4_low _ hd, enc_cont_low _ hm1, enc_cont_low _ hm2, enc_cont_low _ hm3,
              utf8_cp4 _ _ _ _ hm1 hm2 hm3]
            omega
          have hok : text_editor_buffer.utf8_ok_at (240 + cp / 262144)
              ((128 + cp / 4096 % 64) :: (128 + cp / 64 % 64) :: (128 + cp % 64) :: rest) =
              true := by
            rw [text_editor_buffer.ok_four _ _ _ _ _ hlen, enc_cont _ hm1, enc_cont _ hm2,
              enc_cont _ hm3, hcp']
            simp only [Bool.true_and, decide_eq_true_iff]
            exact ⟨by omega, hmax⟩
          rw [text_editor_buffer.is_valid_utf8, if_pos hok, hlen]
          norm_num [List.drop_succ_cons, List.drop_zero]
          exact ih

/-- C8: `is_valid_utf8()` returns true exactly when the byte sequence is a
concatenation of canonical UTF-8 encodings of Unicode scalar values (code
points up to U+10FFFF, surrogates excluded); equivalently, it returns false
exactly on sequences containing an invalid lead byte, a sequence truncated
by the buffer end, a malformed continuation byte, an overlong encoding, an
encoded surrogate, or a code point above U+10FFFF. -/
theorem c8_is_valid_utf8_iff (bytes : List Nat) (h : ∀ b ∈ bytes, b < 256) :
    text_editor_buffer.is_valid_utf8 bytes = true ↔ SpecUtf8 bytes :=
  ⟨valid_utf8_sound bytes.length bytes le_rfl h, valid_utf8_complete bytes⟩

/-- C8 witness: the UTF-8 encoding of `"aé€\u{10348}"` — a 1-, 2-, 3- and
4-byte character — instantiating `c8_is_valid_utf8_iff`. -/
theorem c8_is_valid_utf8_iff_witness :
    (∀ b ∈ [97, 195, 169, 226, 130, 172, 240, 144, 141, 136], b < 256) ∧
    (text_editor_buffer.is_valid_utf8 [97, 195, 169, 226, 130, 172, 240, 144, 141, 136] = true ↔
      SpecUtf8 [97, 195, 169, 226, 130, 172, 240, 144, 141, 136]) :=
  ⟨by decide, c8_is_valid_utf8_iff [97, 195, 169, 226, 130, 172, 240, 144, 141, 136] (by decide)⟩
